import Mathlib

/-
Verification development for the websocket-event-listener repository
(src/index.js). The JavaScript source is shallowly embedded: every pure
computation becomes a Lean function, the stateful interface cache becomes
explicit state passing, the retrying network fetch becomes a function over
an explicit transport oracle, and JS exceptions become Except/Option.
The RPC transport and the ethers ABI engine are external collaborators and
are modelled at their interface boundary (spec sections 1 and 6): an Abi
value packages the declared events together with the decode / topic-encode
behaviour the engine derives from the interface description.
-/

namespace EventListener

/-! ## Decimal digit strings (model of the JS number-to-string conversion
and of the JS Number() parse used on the stringified length field). -/

/-- Character for a single digit value below 16 (0-9 then a-f), as produced
by lowercase hex or decimal printing. -/
def digitChar (n : Nat) : Char :=
  if n < 10 then Char.ofNat (48 + n) else Char.ofNat (87 + n)

/-- Fuel-driven accumulator loop producing the base-10 digits of a number,
most significant first. -/
def decDigitsAux (fuel : Nat) (n : Nat) (acc : List Char) : List Char :=
  match fuel with
  | 0 => acc
  | fuel + 1 =>
    if n < 10 then digitChar n :: acc
    else decDigitsAux fuel (n / 10) (digitChar (n % 10) :: acc)

/-- Decimal digit list of a natural number, most significant first. -/
def decDigits (n : Nat) : List Char := decDigitsAux (n + 1) n []

/-- Decimal string of a natural number (model of JS Number/BigNumber
toString for nonnegative values). -/
def natDecStr (n : Nat) : String := (decDigits n).asString

/-- Decimal string of an integer (model of JS Number/BigNumber/BigInt
toString). -/
def intDecStr : Int → String
  | .ofNat m => natDecStr m
  | .negSucc m => "-" ++ natDecStr (m + 1)

/-- Numeric value of a decimal digit character. -/
def decDigitVal (c : Char) : Nat := c.toNat - 48

/-- Parse a digit list as a decimal natural number; none unless the list is
nonempty and all digits (model of JS Number() on such strings, where a
non-numeric string yields NaN). -/
def parseDecList (l : List Char) : Option Nat :=
  if l ≠ [] ∧ l.all Char.isDigit then
    some (l.foldl (fun a c => a * 10 + decDigitVal c) 0)
  else none

/-- Parse a string as a decimal natural number; the model of the JS
Number() conversion applied by the normalizer to the stringified length
field. -/
def parseDec (s : String) : Option Nat := parseDecList s.toList

/-! ### Round trip: Number(String(n)) = n -/

theorem digitChar_isDigit : ∀ m, m < 10 → (digitChar m).isDigit = true := by
  decide

theorem decDigitVal_digitChar : ∀ m, m < 10 → decDigitVal (digitChar m) = m := by
  decide

/-- Main invariant of the digit-printing loop: with enough fuel it prepends
a nonempty, all-digit prefix whose decimal fold recovers the number. -/
theorem decDigitsAux_spec : ∀ (fuel n : Nat), n < 10 ^ fuel → 0 < fuel →
    ∀ acc, ∃ pre, decDigitsAux fuel n acc = pre ++ acc ∧ pre ≠ [] ∧
      pre.all Char.isDigit = true ∧
      ∀ a, pre.foldl (fun a c => a * 10 + decDigitVal c) a =
        a * 10 ^ pre.length + n := by
  intro fuel
  induction fuel with
  | zero => intro n _ h; omega
  | succ fuel ih =>
    intro n hn _ acc
    by_cases hsmall : n < 10
    · refine ⟨[digitChar n], ?_, by simp, ?_, ?_⟩
      · simp [decDigitsAux, hsmall]
      · simp [digitChar_isDigit n hsmall]
      · intro a
        simp [List.foldl, decDigitVal_digitChar n hsmall]
    · have hfuel : 0 < fuel := by
        by_contra h0
        have : fuel = 0 := by omega
        subst this
        simp [pow_succ] at hn
        omega
      have hdiv : n / 10 < 10 ^ fuel := by
        apply Nat.div_lt_of_lt_mul
        calc n < 10 ^ (fuel + 1) := hn
        _ = 10 * 10 ^ fuel := by ring
      obtain ⟨pre, heq, hne, hdig, hfold⟩ :=
        ih (n / 10) hdiv hfuel (digitChar (n % 10) :: acc)
      refine ⟨pre ++ [digitChar (n % 10)], ?_, by simp [hne], ?_, ?_⟩
      · simp [decDigitsAux, hsmall, heq]
      · have hmod : (digitChar (n % 10)).isDigit = true :=
          digitChar_isDigit _ (Nat.mod_lt _ (by norm_num))
        simp only [List.all_append, List.all_cons, List.all_nil, hdig, hmod]
        rfl
      · intro a
        rw [List.foldl_append]
        simp only [List.foldl]
        rw [hfold a, decDigitVal_digitChar _ (Nat.mod_lt _ (by norm_num))]
        simp only [List.length_append, List.length_cons, List.length_nil]
        have h1 : (a * 10 ^ pre.length + n / 10) * 10 + n % 10 =
            a * (10 ^ pre.length * 10) + (n / 10 * 10 + n % 10) := by ring
        have h2 : n / 10 * 10 + n % 10 = n := by omega
        rw [h1, h2, ← pow_succ]

theorem lt_ten_pow_succ (n : Nat) : n < 10 ^ (n + 1) := by
  calc n < 2 ^ n := Nat.lt_two_pow n
  _ ≤ 10 ^ n := Nat.pow_le_pow_left (by norm_num) n
  _ ≤ 10 ^ (n + 1) := Nat.pow_le_pow_right (by norm_num) (Nat.le_succ n)

/-- Decimal digits of n are nonempty, all digits, and fold back to n. -/
theorem decDigits_spec (n : Nat) : decDigits n ≠ [] ∧
    (decDigits n).all Char.isDigit = true ∧
    (decDigits n).foldl (fun a c => a * 10 + decDigitVal c) 0 = n := by
  obtain ⟨pre, heq, hne, hdig, hfold⟩ :=
    decDigitsAux_spec (n + 1) n (lt_ten_pow_succ n) (Nat.succ_pos n) []
  have hpre : decDigits n = pre := by simpa [decDigits] using heq
  refine ⟨hpre ▸ hne, hpre ▸ hdig, ?_⟩
  rw [hpre, hfold 0]
  simp

/-- Round trip: parsing the printed decimal string recovers the number. -/
theorem parseDec_natDecStr (n : Nat) : parseDec (natDecStr n) = some n := by
  obtain ⟨hne, hdig, hfold⟩ := decDigits_spec n
  show parseDecList (natDecStr n).toList = some n
  have htl : (natDecStr n).toList = decDigits n := rfl
  rw [htl]
  unfold parseDecList
  rw [if_pos ⟨hne, hdig⟩, hfold]

/-- Every printed decimal digit string consists of digit characters only;
in particular it is never the string "length". -/
theorem natDecStr_ne_length (n : Nat) : natDecStr n ≠ "length" := by
  intro h
  obtain ⟨-, hdig, -⟩ := decDigits_spec n
  have htl : decDigits n = "length".toList := by
    rw [← h]
    rfl
  rw [htl] at hdig
  exact absurd hdig (by decide)

/-! ## Hex encoding (models of ethers hexlify and hexStripZeros as used on
block numbers by fetchLogs). -/

/-- Fuel-driven accumulator loop producing base-16 digits, most significant
first. -/
def hexDigitsAux (fuel : Nat) (n : Nat) (acc : List Char) : List Char :=
  match fuel with
  | 0 => acc
  | fuel + 1 =>
    if n < 16 then digitChar n :: acc
    else hexDigitsAux fuel (n / 16) (digitChar (n % 16) :: acc)

/-- Minimal lowercase hex digit list of a natural number. -/
def hexDigits (n : Nat) : List Char := hexDigitsAux (n + 1) n []

/-- Model of ethers hexlify on a nonnegative number: 0x-prefixed lowercase
hex, zero-padded on the left to an even number of digits (whole bytes). -/
def hexlify (n : Nat) : String :=
  let ds := hexDigits n
  "0x" ++ (if ds.length % 2 = 1 then '0' :: ds else ds).asString

/-- Drop leading zero characters but keep at least one character, as ethers
hexStripZeros does on the digits after the 0x tag. -/
def stripLeadingZeroChars : List Char → List Char
  | [] => []
  | [c] => [c]
  | c :: rest => if c = '0' then stripLeadingZeroChars rest else c :: rest

/-- Model of ethers hexStripZeros: strip leading zero digits of a
0x-prefixed hex string, keeping at least one digit. -/
def hexStripZeros (s : String) : String :=
  "0x" ++ (stripLeadingZeroChars (s.toList.drop 2)).asString

theorem digitChar_ne_zero : ∀ m, m < 16 → 0 < m → digitChar m ≠ '0' := by
  decide

/-- The hex-printing loop with enough fuel yields a leading digit that is
the image of a nonzero value below 16, for positive input. -/
theorem hexDigitsAux_head : ∀ (fuel n : Nat), n < 16 ^ fuel → 0 < n →
    ∀ acc, ∃ m rest, 0 < m ∧ m < 16 ∧
      hexDigitsAux fuel n acc = digitChar m :: rest := by
  intro fuel
  induction fuel with
  | zero => intro n h hpos; simp at h; omega
  | succ fuel ih =>
    intro n hn hpos acc
    by_cases hsmall : n < 16
    · exact ⟨n, acc, hpos, hsmall, by simp [hexDigitsAux, hsmall]⟩
    · have hdivpos : 0 < n / 16 := Nat.div_pos (le_of_not_lt hsmall) (by norm_num)
      have hdiv : n / 16 < 16 ^ fuel := by
        apply Nat.div_lt_of_lt_mul
        calc n < 16 ^ (fuel + 1) := hn
        _ = 16 * 16 ^ fuel := by ring
      obtain ⟨m, rest, hm0, hm16, heq⟩ :=
        ih (n / 16) hdiv hdivpos (digitChar (n % 16) :: acc)
      exact ⟨m, rest, hm0, hm16, by simp [hexDigitsAux, hsmall, heq]⟩

theorem lt_sixteen_pow_succ (n : Nat) : n < 16 ^ (n + 1) := by
  calc n < 2 ^ n := Nat.lt_two_pow n
  _ ≤ 16 ^ n := Nat.pow_le_pow_left (by norm_num) n
  _ ≤ 16 ^ (n + 1) := Nat.pow_le_pow_right (by norm_num) (Nat.le_succ n)

/-- For positive n, the minimal hex digits start with a nonzero digit. -/
theorem hexDigits_head (n : Nat) (h : 0 < n) :
    ∃ m rest, 0 < m ∧ m < 16 ∧ hexDigits n = digitChar m :: rest := by
  obtain ⟨m, rest, hm0, hm16, heq⟩ :=
    hexDigitsAux_head (n + 1) n (lt_sixteen_pow_succ n) h []
  exact ⟨m, rest, hm0, hm16, heq⟩

theorem stripLeadingZeroChars_no_zero (l : List Char)
    (h : ∀ c rest, l = c :: rest → c ≠ '0') : stripLeadingZeroChars l = l := by
  match l with
  | [] => rfl
  | [c] => rfl
  | c :: c2 :: rest =>
    have : c ≠ '0' := h c (c2 :: rest) rfl
    simp [stripLeadingZeroChars, this]

/-- Stripping the zero padding of hexlify recovers exactly the minimal hex
digits: the composite used by fetchLogs is the canonical minimal-hex
encoding of a positive block number. -/
theorem hexStripZeros_hexlify (n : Nat) (h : 0 < n) :
    hexStripZeros (hexlify n) = "0x" ++ (hexDigits n).asString := by
  obtain ⟨m, rest, hm0, hm16, heq⟩ := hexDigits_head n h
  have hne : digitChar m ≠ '0' := digitChar_ne_zero m hm16 hm0
  have hstrip : stripLeadingZeroChars (hexDigits n) = hexDigits n := by
    apply stripLeadingZeroChars_no_zero
    intro c rest2 hc
    rw [heq] at hc
    cases hc
    exact hne
  have hdata : (hexlify n).toList =
      '0' :: 'x' :: (if (hexDigits n).length % 2 = 1 then '0' :: hexDigits n
        else hexDigits n) := by
    simp only [hexlify]
    show ("0x" ++ _ : String).data = _
    rw [String.data_append]
    rfl
  unfold hexStripZeros
  rw [hdata]
  by_cases hodd : (hexDigits n).length % 2 = 1
  · simp only [hodd, if_pos]
    have hne2 : hexDigits n ≠ [] := by rw [heq]; simp
    have : stripLeadingZeroChars ('0' :: hexDigits n) =
        stripLeadingZeroChars (hexDigits n) := by
      match hd : hexDigits n with
      | [] => exact absurd hd hne2
      | c :: rest3 => simp [stripLeadingZeroChars]
    simp only [List.drop, this, hstrip]
  · simp only [hodd, if_neg, if_false]
    simp only [List.drop, hstrip]

/-! ## Data model -/

/-- Decoded argument value emitted by the ABI engine: a string (address,
hash, bytes), a number / big number, or a boolean. The JS expression
(v.toString ? v.toString() : v) || '' renders each of these to a string. -/
inductive Value where
  | vStr : String → Value
  | vNum : Int → Value
  | vBool : Bool → Value
deriving DecidableEq

/-- JS string form of a decoded value, as produced by
(v.toString ? v.toString() : v) || '' in parseEventLog: every modelled
value exposes toString, and the || '' fallback only maps the empty string
to itself. -/
def Value.jsToString : Value → String
  | .vStr s => s
  | .vNum i => intDecStr i
  | .vBool b => if b then "true" else "false"

/-- Raw log record as supplied by the transport (spec section 3 RawLog). -/
structure RawLog where
  address : String
  topics : List String
  data : String
  blockNumber : Nat
  transactionIndex : Nat
  logIndex : Nat
  transactionHash : String
  removed : Bool
deriving DecidableEq

/-- Decoder output for a raw log (spec section 3 ParsedEvent): name,
signature, defining topic and the ordered named argument values. -/
structure ParsedEvent where
  name : String
  signature : String
  topic : String
  namedValues : List (String × Value)
deriving DecidableEq

/-- Caller-supplied JS value used in event parameter filters; null is a
possible explicit entry. Truthiness follows JS: null, false, 0 and the
empty string are falsy. -/
inductive JsVal where
  | str : String → JsVal
  | num : Int → JsVal
  | bool : Bool → JsVal
  | null : JsVal
deriving DecidableEq

/-- JS truthiness of a filter value. -/
def JsVal.truthy : JsVal → Bool
  | .str s => s ≠ ""
  | .num n => n ≠ 0
  | .bool b => b
  | .null => false

/-- Declared event metadata exposed by the ABI engine's events mapping:
the event's base name and its declared input parameter names in
declaration order. -/
structure EventAbi where
  name : String
  inputs : List String
deriving DecidableEq

/-- Contract interface description together with the behaviour the external
ABI engine (ethers Interface) derives from it, modelled at its interface
boundary (spec sections 1 and 6): a signature-keyed event table, a raw-log
decoder (Except models a thrown parse error, ok none a null result), and
the filter-topic encoder. -/
structure Abi where
  events : List (String × EventAbi)
  decode : RawLog → Except String (Option ParsedEvent)
  encodeTopics : String → List (Option JsVal) → List (Option String)

/-- Constructed decoder instance (new ethers.utils.Interface(abi)).
Construction from the same description is deterministic. -/
structure Interface where
  abi : Abi

/-- Model of abiInterface.parseLog. -/
def Interface.parseLog (i : Interface) (log : RawLog) :
    Except String (Option ParsedEvent) :=
  i.abi.decode log

/-- Model of abiInterface.events. -/
def Interface.events (i : Interface) : List (String × EventAbi) :=
  i.abi.events

/-- Model of abiInterface.encodeFilterTopics. -/
def Interface.encodeFilterTopics (i : Interface) (name : String)
    (vals : List (Option JsVal)) : List (Option String) :=
  i.abi.encodeTopics name vals

/-- Model of new ethers.utils.Interface(abi). -/
def Interface.new (abi : Abi) : Interface := ⟨abi⟩

/-- Canonical normalized output record (spec section 3
NormalizedLogRecord). The values mapping is an ordered association list
from parameter name to string representation. -/
structure NormalizedRecord where
  address : String
  topics : List String
  data : String
  blockNumber : Nat
  transactionIndex : Nat
  logIndex : Nat
  transactionHash : String
  removed : Bool
  name : String
  signature : String
  topic : String
  values : List (String × String)
deriving DecidableEq

/-! ## Log normalizer (parseEventLog, src/index.js lines 10-49) -/

/-- Numerically indexed duplicate entries ("0", "1", ...) the decoder emits
alongside the named parameters, starting at index i. -/
def positionalEntriesFrom : Nat → List (String × Value) → List (String × Value)
  | _, [] => []
  | i, kv :: rest => (natDecStr i, kv.2) :: positionalEntriesFrom (i + 1) rest

/-- Array-like values object produced by the decoder for a parsed log:
numerically indexed duplicates of the arguments, then the named
parameters, then a length field holding the argument count (spec
section 4.2 step 3 describes exactly these artifacts). -/
def decoderValuesObject (pe : ParsedEvent) : List (String × Value) :=
  positionalEntriesFrom 0 pe.namedValues ++ pe.namedValues ++
    [("length", Value.vNum pe.namedValues.length)]

/-- Model of the JS toLowerCase() conversion on the ASCII strings this
system handles: each uppercase letter is mapped to its lowercase form. -/
def toLowerStr (s : String) : String := (s.toList.map Char.toLower).asString

/-- Model of _.startsWith(stringVal, '0x'): the first two characters are
the 0x hex tag. The check is case sensitive, exactly as in the source. -/
def hasHexTag (s : String) : Bool :=
  match s.toList with
  | c1 :: c2 :: _ => c1 = '0' && c2 = 'x'
  | _ => false

/-- Per-value normalization from parseEventLog: stringify, then lowercase
when the string carries the leading 0x hex tag. -/
def normalizeValueString (v : Value) : String :=
  let stringVal := v.jsToString
  if hasHexTag stringVal then toLowerStr stringVal else stringVal

/-- First match in an association list, the model of a JS object property
read (JS objects cannot hold duplicate keys). -/
def assocLookup (key : String) : List (String × α) → Option α
  | [] => none
  | kv :: rest => if kv.1 = key then some kv.2 else assocLookup key rest

/-- Model of _.range(Number(x)) mapped to strings: the numeric-index key
strings "0" ... "n-1"; Number of a non-numeric string is NaN, on which
_.range yields the empty list. -/
def argumentRangeOf (lengthStr : Option String) : List String :=
  match lengthStr.bind parseDec with
  | some n => (List.range n).map natDecStr
  | none => []

/-- Normalizer: decode a raw log against a decoder instance and build the
canonical record, or return none when decoding throws or yields nothing
(src/index.js parseEventLog). -/
def parseEventLog (log : RawLog) (abiInterface : Interface) :
    Option NormalizedRecord :=
  match abiInterface.parseLog log with
  | .error _ => none
  | .ok none => none
  | .ok (some parsedLog) =>
    let parsedLogValues :=
      (decoderValuesObject parsedLog).map fun kv => (kv.1, normalizeValueString kv.2)
    let argumentRange := argumentRangeOf (assocLookup "length" parsedLogValues)
    let formattedLogValues := parsedLogValues.filter fun kv =>
      decide (kv.1 ∉ argumentRange) && decide (kv.1 ≠ "length")
    some {
      address := toLowerStr log.address
      topics := log.topics
      data := log.data
      blockNumber := log.blockNumber
      transactionIndex := log.transactionIndex
      logIndex := log.logIndex
      transactionHash := log.transactionHash
      removed := log.removed
      name := parsedLog.name
      signature := parsedLog.signature
      topic := parsedLog.topic
      values := formattedLogValues }

/-! ## Interface cache and batch normalization (parseEventLogs,
src/index.js lines 51-69). The process-wide abiInterfaces object becomes
an explicit association-list state threaded through the calls. -/

/-- Decoder instance parseEventLogs uses for a batch: the cached instance
for the given address when present, else a freshly constructed one. -/
def cachedInterface (cache : List (String × Interface)) (addr : String)
    (abi : Abi) : Interface :=
  match assocLookup addr cache with
  | some i => i
  | none => Interface.new abi

/-- Cache state after parseEventLogs touches the entry for addr: unchanged
when present, else extended with the freshly constructed instance. -/
def cacheAfter (cache : List (String × Interface)) (addr : String)
    (abi : Abi) : List (String × Interface) :=
  match assocLookup addr cache with
  | some _ => cache
  | none => (addr, Interface.new abi) :: cache

/-- Batch normalizer: an empty batch is returned unchanged without touching
the cache; otherwise one decoder instance is looked up (or constructed and
stored) under the first log's address and used for every log of the batch,
and logs that fail to decode are dropped (_.compact). -/
def parseEventLogs (cache : List (String × Interface)) (logs : List RawLog)
    (abi : Abi) : List NormalizedRecord × List (String × Interface) :=
  match logs with
  | [] => ([], cache)
  | firstLog :: _ =>
    let abiInterface := cachedInterface cache firstLog.address abi
    (logs.filterMap (fun log => parseEventLog log abiInterface),
     cacheAfter cache firstLog.address abi)

/-! ## Normalizer characterization -/

theorem hasHexTag_of_all_digits (l : List Char) (h : l.all Char.isDigit = true) :
    hasHexTag l.asString = false := by
  have htl : (l.asString).toList = l := rfl
  match l, h with
  | [], _ => rfl
  | [c], _ => rfl
  | c1 :: c2 :: rest, h =>
    show hasHexTag (c1 :: c2 :: rest).asString = false
    have hc2 : c2.isDigit = true := by
      simp [List.all_cons] at h
      exact h.2.1
    have hx : c2 ≠ 'x' := by
      intro he
      rw [he] at hc2
      exact absurd hc2 (by decide)
    have hdata : ((c1 :: c2 :: rest).asString).data = c1 :: c2 :: rest := rfl
    simp [hasHexTag, String.toList, hdata, hx]

theorem hasHexTag_natDecStr (n : Nat) : hasHexTag (natDecStr n) = false := by
  obtain ⟨-, hdig, -⟩ := decDigits_spec n
  exact hasHexTag_of_all_digits (decDigits n) hdig

/-- Stringifying the synthetic length field yields the decimal digits of
the argument count. -/
theorem normalizeValueString_length (n : Nat) :
    normalizeValueString (Value.vNum n) = natDecStr n := by
  show (if hasHexTag (natDecStr n) then _ else natDecStr n) = natDecStr n
  rw [hasHexTag_natDecStr n]
  rfl

theorem assocLookup_append_right (key : String) (l1 l2 : List (String × α))
    (h : ∀ kv ∈ l1, kv.1 ≠ key) :
    assocLookup key (l1 ++ l2) = assocLookup key l2 := by
  induction l1 with
  | nil => rfl
  | cons kv rest ih =>
    have hk : kv.1 ≠ key := h kv (List.mem_cons_self kv rest)
    simp only [List.cons_append, assocLookup, hk, if_neg, if_false]
    exact ih fun kv2 h2 => h kv2 (List.mem_cons_of_mem kv h2)

theorem positionalEntriesFrom_keys (vals : List (String × Value)) :
    ∀ (i : Nat) kv, kv ∈ positionalEntriesFrom i vals →
      ∃ j, i ≤ j ∧ j < i + vals.length ∧ kv.1 = natDecStr j := by
  induction vals with
  | nil => intro i kv h; simp [positionalEntriesFrom] at h
  | cons v rest ih =>
    intro i kv h
    simp only [positionalEntriesFrom, List.mem_cons] at h
    rcases h with h | h
    · exact ⟨i, le_refl i, by simp, by rw [h]⟩
    · obtain ⟨j, hj1, hj2, hj3⟩ := ih (i + 1) kv h
      exact ⟨j, by omega, by simp only [List.length_cons]; omega, hj3⟩

/-- Full characterization of the normalizer on a successfully decoded log
whose declared parameter names avoid the decoder's synthetic keys (the
numeric-index strings and "length"): the record keeps the raw fields with
the address lowercased, takes name, signature and topic from the decoded
event, and its values mapping is exactly the named parameters with each
value stringified and hex-lowercased. -/
theorem parseEventLog_spec (log : RawLog) (iface : Interface) (pe : ParsedEvent)
    (hdec : iface.parseLog log = .ok (some pe))
    (hnames : ∀ kv ∈ pe.namedValues,
      kv.1 ∉ (List.range pe.namedValues.length).map natDecStr ∧ kv.1 ≠ "length") :
    parseEventLog log iface = some {
      address := toLowerStr log.address
      topics := log.topics
      data := log.data
      blockNumber := log.blockNumber
      transactionIndex := log.transactionIndex
      logIndex := log.logIndex
      transactionHash := log.transactionHash
      removed := log.removed
      name := pe.name
      signature := pe.signature
      topic := pe.topic
      values := pe.namedValues.map fun kv => (kv.1, normalizeValueString kv.2) } := by
  simp only [parseEventLog, hdec]
  have hobj : (decoderValuesObject pe).map
      (fun kv => (kv.1, normalizeValueString kv.2)) =
      ((positionalEntriesFrom 0 pe.namedValues).map
        (fun kv => (kv.1, normalizeValueString kv.2)) ++
       (pe.namedValues.map (fun kv => (kv.1, normalizeValueString kv.2)) ++
        [("length", natDecStr pe.namedValues.length)])) := by
    simp only [decoderValuesObject, List.map_append, List.map_cons, List.map_nil,
      List.append_assoc]
    rw [normalizeValueString_length]
  rw [hobj]
  have hposkeys : ∀ kv ∈ (positionalEntriesFrom 0 pe.namedValues).map
      (fun kv => ((kv.1 : String), normalizeValueString kv.2)),
      ∃ j, j < pe.namedValues.length ∧ kv.1 = natDecStr j := by
    intro kv hkv
    obtain ⟨kv0, hkv0, hkveq⟩ := List.mem_map.mp hkv
    obtain ⟨j, hj1, hj2, hj3⟩ := positionalEntriesFrom_keys pe.namedValues 0 kv0 hkv0
    exact ⟨j, by omega, by rw [← hkveq]; exact hj3⟩
  have hlook : assocLookup "length"
      ((positionalEntriesFrom 0 pe.namedValues).map
        (fun kv => (kv.1, normalizeValueString kv.2)) ++
       (pe.namedValues.map (fun kv => (kv.1, normalizeValueString kv.2)) ++
        [("length", natDecStr pe.namedValues.length)])) =
      some (natDecStr pe.namedValues.length) := by
    rw [assocLookup_append_right]
    · rw [assocLookup_append_right]
      · simp [assocLookup]
      · intro kv hkv
        obtain ⟨kv0, hkv0, hkveq⟩ := List.mem_map.mp hkv
        rw [← hkveq]
        exact (hnames kv0 hkv0).2
    · intro kv hkv
      obtain ⟨j, -, hj⟩ := hposkeys kv hkv
      rw [hj]
      exact natDecStr_ne_length j
  rw [hlook]
  have hrange : argumentRangeOf (some (natDecStr pe.namedValues.length)) =
      (List.range pe.namedValues.length).map natDecStr := by
    simp [argumentRangeOf, Option.bind, parseDec_natDecStr]
  rw [hrange]
  have hfilter :
      (((positionalEntriesFrom 0 pe.namedValues).map
        (fun kv => (kv.1, normalizeValueString kv.2)) ++
       (pe.namedValues.map (fun kv => (kv.1, normalizeValueString kv.2)) ++
        [("length", natDecStr pe.namedValues.length)])).filter fun kv =>
          decide (kv.1 ∉ (List.range pe.namedValues.length).map natDecStr) &&
          decide (kv.1 ≠ "length")) =
      pe.namedValues.map (fun kv => (kv.1, normalizeValueString kv.2)) := by
    rw [List.filter_append, List.filter_append]
    have h1 : ((positionalEntriesFrom 0 pe.namedValues).map
        (fun kv => (kv.1, normalizeValueString kv.2))).filter (fun kv =>
          decide (kv.1 ∉ (List.range pe.namedValues.length).map natDecStr) &&
          decide (kv.1 ≠ "length")) = [] := by
      rw [List.filter_eq_nil_iff]
      intro kv hkv
      obtain ⟨j, hjlt, hj⟩ := hposkeys kv hkv
      have : kv.1 ∈ (List.range pe.namedValues.length).map natDecStr := by
        rw [hj]
        exact List.mem_map.mpr ⟨j, List.mem_range.mpr hjlt, rfl⟩
      simp [this]
    have h2 : (pe.namedValues.map
        (fun kv => (kv.1, normalizeValueString kv.2))).filter (fun kv =>
          decide (kv.1 ∉ (List.range pe.namedValues.length).map natDecStr) &&
          decide (kv.1 ≠ "length")) =
        pe.namedValues.map (fun kv => (kv.1, normalizeValueString kv.2)) := by
      rw [List.filter_eq_self]
      intro kv hkv
      obtain ⟨kv0, hkv0, hkveq⟩ := List.mem_map.mp hkv
      obtain ⟨hn1, hn2⟩ := hnames kv0 hkv0
      rw [← hkveq]
      simp [hn1, hn2]
    have h3 : ([(("length" : String), natDecStr pe.namedValues.length)].filter
        (fun kv =>
          decide (kv.1 ∉ (List.range pe.namedValues.length).map natDecStr) &&
          decide (kv.1 ≠ "length"))) = [] := by
      simp
    rw [h1, h2, h3]
    simp
  rw [hfilter]

/-! ## Historical log fetcher (fetchLogs, src/index.js lines 91-122) -/

/-- Topic argument of fetchLogs: either already an array of topic filter
entries or a single topic value (the source wraps the latter). -/
inductive TopicsInput where
  | arr : List (Option String) → TopicsInput
  | single : Option String → TopicsInput
deriving DecidableEq

/-- Model of the JS expression contractAddress || undefined: an empty
string is falsy and becomes undefined. -/
def jsOrUndefined : Option String → Option String
  | some s => if s = "" then none else some s
  | none => none

/-- Block bound encoding in the fetchLogs query: the compound
fromBlock ? hexStripZeros(hexlify(fromBlock)) : 'latest', where both an
absent and a zero block number are falsy. -/
def encodeBlockBound : Option Nat → String
  | none => "latest"
  | some n => if n = 0 then "latest" else hexStripZeros (hexlify n)

/-- RPC query object assembled by fetchLogs. -/
structure LogQuery where
  address : Option String
  topics : List (Option String)
  fromBlock : String
  toBlock : String
deriving DecidableEq

/-- Query parameters of one fetchLogs invocation. -/
def buildLogParams (contractAddress : Option String) (topic : TopicsInput)
    (fromBlock toBlock : Option Nat) : LogQuery :=
  { address := jsOrUndefined contractAddress
    topics := match topic with
      | .arr l => l
      | .single t => [t]
    fromBlock := encodeBlockBound fromBlock
    toBlock := encodeBlockBound toBlock }

/-- One observed transport attempt of fetchLogs: whether it went through
the caller-supplied provider (getProviderLogs) or the default transport
(getLogs), the query it carried, and the delay scheduled before it. -/
structure FetchAttempt where
  usedProvider : Bool
  params : LogQuery
  delayMs : Nat
deriving DecidableEq

/-- Outcome of a terminating fetchLogs run: the attempt trace, the value
returned to the caller, and the interface cache afterwards. -/
structure FetchRun where
  attempts : List FetchAttempt
  result : List NormalizedRecord
  cache : List (String × Interface)

/-- Optional caller-supplied transform applied to the normalized batch. -/
def applyParser (parser : Option (List NormalizedRecord → List NormalizedRecord))
    (l : List NormalizedRecord) : List NormalizedRecord :=
  match parser with
  | some p => p l
  | none => l

/-- Model of fetchLogs against a transport oracle that fails the first
failures attempts and then answers successLogs. Each failed attempt
reschedules the call after a fixed 1000 ms delay; the recursive
rescheduling at src/index.js line 113 passes contractAddress, abi, topic,
fromBlock, toBlock and parser but omits the provider argument, so every
retry uses the default transport. On success the logs are batch-normalized
(updating the interface cache) and the optional parser is applied. -/
def fetchLogsRun (failures : Nat) (successLogs : List RawLog)
    (contractAddress : Option String) (abi : Abi) (topic : TopicsInput)
    (fromBlock toBlock : Option Nat)
    (parser : Option (List NormalizedRecord → List NormalizedRecord))
    (provider : Bool) (cache : List (String × Interface)) (delay : Nat) :
    FetchRun :=
  let logParams := buildLogParams contractAddress topic fromBlock toBlock
  match failures with
  | 0 =>
    let parsed := parseEventLogs cache successLogs abi
    { attempts := [⟨provider, logParams, delay⟩]
      result := applyParser parser parsed.1
      cache := parsed.2 }
  | k + 1 =>
    let rest := fetchLogsRun k successLogs contractAddress abi topic
      fromBlock toBlock parser false cache 1000
    { rest with attempts := ⟨provider, logParams, delay⟩ :: rest.attempts }

/-! ## Live subscription (subscribe, src/index.js lines 124-151) -/

/-- Filter object for the push subscription, after _.pickBy(..., _.identity)
drops falsy fields: an absent or empty address disappears, the topics array
is an object and always kept, and a zero fromBlock disappears. -/
structure SubQuery where
  address : Option String
  topics : Option (List (Option String))
  fromBlock : Option Int
deriving DecidableEq

/-- Subscription filter assembled by subscribe. -/
def buildSubParams (contractAddress : Option String)
    (topic : List (Option String)) (fromBlock : Int) : SubQuery :=
  { address := jsOrUndefined contractAddress
    topics := some topic
    fromBlock := if fromBlock = 0 then none else some fromBlock }

/-- Payload handed to the descriptor callback for one pushed log on the
live channel: without a parser it is the one-element array
[parseEventLog(log, abiInterface)] even when normalization yielded null;
with a parser it is whatever the parser returns on the single
normalization result. -/
def handleSubscriptionLog (abiInterface : Interface)
    (parser : Option (Option NormalizedRecord → List (Option NormalizedRecord)))
    (log : RawLog) : List (Option NormalizedRecord) :=
  match parser with
  | some p => p (parseEventLog log abiInterface)
  | none => [parseEventLog log abiInterface]

/-! ## Topic filter deriver (EventTracker.getEventTopics, src/index.js
lines 225-242) -/

/-- Keep only truthy entries of the params object: the source applies
_.pickBy with _.identity to paramsInputs defaulted to an empty object. -/
def pickByTruthy (obj : List (String × JsVal)) : List (String × JsVal) :=
  obj.filter fun kv => kv.2.truthy

/-- Characters before the first opening parenthesis. -/
def takeUntilParen : List Char → List Char
  | [] => []
  | c :: rest => if c = '(' then [] else c :: takeUntilParen rest

/-- Base name of an event key, _.first(key.split('(')): everything before
the first opening parenthesis, the whole key when there is none. -/
def baseEventName (key : String) : String :=
  (takeUntilParen key.toList).asString

/-- Model of _.mapKeys(events, ... _.first(key.split('('))) followed by
indexing with the requested name: with lodash mapKeys a later key
overwrites an earlier identical one, so the last declared event with the
requested base name wins. -/
def lookupMappedEvent (events : List (String × EventAbi)) (name : String) :
    Option EventAbi :=
  ((events.filter fun kv => baseEventName kv.1 = name).getLast?).map (·.2)

/-- Deduplicate keeping first occurrences, as _.uniq does. -/
def uniqFirstAux (seen : List String) : List String → List String
  | [] => []
  | x :: xs =>
    if x ∈ seen then uniqFirstAux seen xs
    else x :: uniqFirstAux (x :: seen) xs

/-- Deduplicate keeping first occurrences, as _.uniq does. -/
def uniqFirst (l : List String) : List String := uniqFirstAux [] l

/-- Distinct declared event names in declaration order
(_.uniq(_.map(_.values(events), 'name'))). -/
def availableEventNames (events : List (String × EventAbi)) : List String :=
  uniqFirst (events.map fun kv => kv.2.name)

/-- Error message raised for an unknown event name. -/
def unknownEventMessage (name : String) (events : List (String × EventAbi)) :
    String :=
  name ++ " not an abi event, possible events are " ++
    String.intercalate ", " (availableEventNames events)

/-- Positional parameter array handed to encodeFilterTopics: one entry per
declared input, the filtered params value when defined there, else null. -/
def eventParamsArray (params : List (String × JsVal)) (abiEvent : EventAbi) :
    List (Option JsVal) :=
  abiEvent.inputs.map fun inputName =>
    match assocLookup inputName params with
    | some v => some v
    | none => none

/-- Topic filter deriver: build the decoder, re-key its events by base
name, fail with the enumerating message when the requested name is absent,
else encode the positional parameter array into the topic list. -/
def getEventTopics (name : String) (paramsInputs : Option (List (String × JsVal)))
    (abi : Abi) : Except String (List (Option String)) :=
  let params := pickByTruthy (paramsInputs.getD [])
  let abiInterface := Interface.new abi
  match lookupMappedEvent abiInterface.events name with
  | none => .error (unknownEventMessage name abiInterface.events)
  | some abiEvent =>
    .ok (abiInterface.encodeFilterTopics name (eventParamsArray params abiEvent))

/-! ## Event tracker orchestration (EventTracker.trackEvent and
subscribeToEvent, src/index.js lines 153-223). The side effects are
recorded as an action trace. -/

/-- User-declared tracking request (spec section 3 EventDescriptor). The
callback, parser and hooks are not needed to state the orchestration
claims and are omitted from the record. -/
structure EventDescriptor where
  name : String
  contract : String
  abi : Abi
  params : Option (List (String × JsVal))
  fromBlock : Option Int
  backFillBlockCount : Option Int

/-- Observable orchestration action: a historical fetch over a block range
or the opening of a live subscription at a block. -/
inductive TrackAction where
  | historicalFetch (contract : String) (topics : List (Option String))
      (fromBlock toBlock : Int)
  | liveSubscribe (contract : String) (topics : List (Option String))
      (fromBlock : Int)
deriving DecidableEq

/-- Effective starting block resolved by subscribeToEvent: an explicit
fromBlock wins, else blockNumber - backFillBlockCount when backfill is
requested, else none. -/
def resolvedStartingBlock (ev : EventDescriptor) (blockNumber : Int) :
    Option Int :=
  match ev.fromBlock with
  | some fb => some fb
  | none =>
    match ev.backFillBlockCount with
    | some c => some (blockNumber - c)
    | none => none

/-- Orchestration of one descriptor at a given block: derive the topics
(propagating an unknown-event error), then run the historical fetch only
when the resolved starting block is truthy (if (fromBlockNumberOverride)
is a JS truthiness test, so a resolved 0 is skipped), and in any case open
the live subscription at blockNumber. -/
def subscribeToEvent (ev : EventDescriptor) (blockNumber : Int) :
    Except String (List TrackAction) := do
  let fromBlockNumberOverride := resolvedStartingBlock ev blockNumber
  let topics ← getEventTopics ev.name ev.params ev.abi
  let backfillActions := match fromBlockNumberOverride with
    | some o =>
      if o ≠ 0 then [TrackAction.historicalFetch ev.contract topics o blockNumber]
      else []
    | none => []
  pure (backfillActions ++ [TrackAction.liveSubscribe ev.contract topics blockNumber])

/-- Model of EventTracker.trackEvent: read the chain head, subtract one,
orchestrate the subscription at that block, append the descriptor to the
tracked list and report true. A thrown topic-derivation error propagates
before the descriptor is appended. -/
def trackEvent (trackedEvents : List EventDescriptor) (headBlockNumber : Int)
    (ev : EventDescriptor) :
    Except String (List TrackAction × List EventDescriptor × Bool) := do
  let latestBlockNumber := headBlockNumber - 1
  let actions ← subscribeToEvent ev latestBlockNumber
  pure (actions, trackedEvents ++ [ev], true)

/-! ## Concrete example data used by the witnesses and counterexamples -/

/-- Example decoded Transfer event. -/
def exTransferParsed : ParsedEvent :=
  { name := "Transfer"
    signature := "Transfer(address,address,uint256)"
    topic := "0xT"
    namedValues := [("from", Value.vStr "0xDEF"), ("to", Value.vStr "0xGHI"),
      ("amount", Value.vNum 1000)] }

/-- Example ABI whose engine decodes logs carrying topic 0xT into the
Transfer event above, throws on every other log, and always encodes the
filter topic list [0xT]. -/
def exAbi : Abi :=
  { events := [("Transfer(address,address,uint256)",
      ⟨"Transfer", ["from", "to", "amount"]⟩)]
    decode := fun log =>
      if log.topics = ["0xT"] then .ok (some exTransferParsed)
      else .error "no matching event"
    encodeTopics := fun _ _ => [some "0xT"] }

/-- Example raw log decodable against exAbi. -/
def exLog : RawLog :=
  { address := "0xABC", topics := ["0xT"], data := "0xdata"
    blockNumber := 100, transactionIndex := 2, logIndex := 3
    transactionHash := "0xh1", removed := false }

/-- Decodable raw log whose address differs from exLog's. -/
def exLogOther : RawLog :=
  { exLog with address := "0xOTHER", transactionHash := "0xh2" }

/-- Raw log the exAbi engine cannot decode (unrelated topic). -/
def exBadLog : RawLog :=
  { exLog with topics := ["0xUNRELATED"], transactionHash := "0xh3" }

/-! ## Claim C1 -/

/-- Claim C1: for every raw log that decodes successfully, the record
returned by parseEventLog has a values mapping whose keys are exactly the
declared parameter names of the decoded event — the numeric-index keys and
the length key emitted by the decoder are removed and every named
parameter is kept. The hypothesis states that the declared names do not
collide with the decoder's synthetic keys. -/
theorem parseEventLog_values_keys_exact (log : RawLog) (iface : Interface)
    (pe : ParsedEvent)
    (hdec : iface.parseLog log = .ok (some pe))
    (hnames : ∀ kv ∈ pe.namedValues,
      kv.1 ∉ (List.range pe.namedValues.length).map natDecStr ∧ kv.1 ≠ "length") :
    ∃ rec, parseEventLog log iface = some rec ∧
      rec.values.map Prod.fst = pe.namedValues.map Prod.fst := by
  refine ⟨_, parseEventLog_spec log iface pe hdec hnames, ?_⟩
  simp

/-- Witness for C1 at a concrete decodable log: the surviving keys are
exactly the three declared parameter names. -/
theorem parseEventLog_values_keys_exact_witness :
    ∃ rec, parseEventLog exLog (Interface.new exAbi) = some rec ∧
      rec.values.map Prod.fst = ["from", "to", "amount"] := by
  obtain ⟨rec, h1, h2⟩ := parseEventLog_values_keys_exact exLog
    (Interface.new exAbi) exTransferParsed rfl (by decide)
  refine ⟨rec, h1, ?_⟩
  rw [h2]
  rfl

/-! ## Claim C4 -/

/-- Claim C4: every decoded value is rendered to its string form (numbers
to their decimal representation); a string that begins with the 0x tag is
lowercased and any other string keeps its case; and the output record's
address is the raw log's address lowercased. -/
theorem parseEventLog_value_stringification (log : RawLog) (iface : Interface)
    (pe : ParsedEvent)
    (hdec : iface.parseLog log = .ok (some pe))
    (hnames : ∀ kv ∈ pe.namedValues,
      kv.1 ∉ (List.range pe.namedValues.length).map natDecStr ∧ kv.1 ≠ "length") :
    ∃ rec, parseEventLog log iface = some rec ∧
      rec.address = toLowerStr log.address ∧
      rec.values = pe.namedValues.map fun kv =>
        (kv.1, if hasHexTag kv.2.jsToString then toLowerStr kv.2.jsToString
               else kv.2.jsToString) := by
  refine ⟨_, parseEventLog_spec log iface pe hdec hnames, rfl, ?_⟩
  simp [normalizeValueString]

/-- Witness for C4 at the example of the claim: address 0xABC and decoded
values from 0xDEF, to 0xGHI and big number 1000 normalize to 0xabc and
the strings 0xdef, 0xghi and 1000. -/
theorem parseEventLog_value_stringification_witness :
    ∃ rec, parseEventLog exLog (Interface.new exAbi) = some rec ∧
      rec.address = "0xabc" ∧
      rec.values = [("from", "0xdef"), ("to", "0xghi"), ("amount", "1000")] := by
  obtain ⟨rec, h1, h2, h3⟩ := parseEventLog_value_stringification exLog
    (Interface.new exAbi) exTransferParsed rfl (by decide)
  refine ⟨rec, h1, ?_, ?_⟩
  · rw [h2]
    rfl
  · rw [h3]
    rfl

/-! ## Claim C5 -/

theorem length_filterMap_count (f : α → Option β) (l : List α) :
    (l.filterMap f).length = l.countP fun a => (f a).isSome := by
  induction l with
  | nil => rfl
  | cons a rest ih =>
    cases hf : f a <;>
      simp [List.filterMap_cons, hf, List.countP_cons, ih]

/-- Claim C5: a raw log whose decoding throws or yields nothing normalizes
to none rather than raising, and a batch of logs normalizes to exactly as
many records as there are logs the batch decoder can decode — the
non-decodable logs are silently filtered out. -/
theorem parseEventLog_failure_and_batch_count :
    (∀ (iface : Interface) (log : RawLog),
      ((∃ e, iface.parseLog log = .error e) ∨ iface.parseLog log = .ok none) →
        parseEventLog log iface = none) ∧
    (∀ (cache : List (String × Interface)) (abi : Abi) (l : RawLog)
        (rest : List RawLog),
      (parseEventLogs cache (l :: rest) abi).1.length =
        (l :: rest).countP fun lg =>
          (parseEventLog lg (cachedInterface cache l.address abi)).isSome) := by
  constructor
  · intro iface log h
    rcases h with ⟨e, he⟩ | he <;> simp [parseEventLog, he]
  · intro cache abi l rest
    simp only [parseEventLogs]
    exact length_filterMap_count _ _

/-- Witness for C5: a non-decodable log normalizes to none, and a batch of
three logs of which two decode yields exactly two records. -/
theorem parseEventLog_failure_and_batch_count_witness :
    parseEventLog exBadLog (Interface.new exAbi) = none ∧
    (parseEventLogs [] [exLog, exBadLog, exLogOther] exAbi).1.length = 2 := by
  constructor
  · exact parseEventLog_failure_and_batch_count.1 (Interface.new exAbi) exBadLog
      (Or.inl ⟨"no matching event", rfl⟩)
  · rw [parseEventLog_failure_and_batch_count.2 [] exAbi exLog [exBadLog, exLogOther]]
    decide

/-! ## Claim C8 -/

/-- Claim C8: on the live subscription path without a caller-supplied
parser the callback is always invoked with a one-element sequence holding
the normalization result of the pushed log; in particular when
normalization yields none the callback still receives the one-element
sequence containing none and is not skipped. -/
theorem subscription_callback_payload (iface : Interface) (log : RawLog) :
    handleSubscriptionLog iface none log = [parseEventLog log iface] ∧
    (handleSubscriptionLog iface none log).length = 1 ∧
    (parseEventLog log iface = none →
      handleSubscriptionLog iface none log = [none]) := by
  refine ⟨rfl, rfl, ?_⟩
  intro h
  simp [handleSubscriptionLog, h]

/-- Witness for C8 on a pushed log that fails to decode: the callback
payload is the one-element sequence containing none. -/
theorem subscription_callback_payload_witness :
    parseEventLog exBadLog (Interface.new exAbi) = none ∧
    handleSubscriptionLog (Interface.new exAbi) none exBadLog = [none] := by
  have h := subscription_callback_payload (Interface.new exAbi) exBadLog
  have hn : parseEventLog exBadLog (Interface.new exAbi) = none := by decide
  exact ⟨hn, h.2.2 hn⟩

/-! ## Claim C10 -/

/-- Claim C10: an empty batch is returned unchanged without touching the
cache; a non-empty batch looks the decoder up in the cache under the first
log's address (constructing and storing it on a miss) and decodes every
log of the batch with that single decoder, whatever the individual log
addresses are; and the cache update of a fetch does not depend on the
contract address the fetch was issued for. -/
theorem parseEventLogs_cache_keyed_by_first_log :
    (∀ (cache : List (String × Interface)) (abi : Abi),
      parseEventLogs cache [] abi = ([], cache)) ∧
    (∀ (cache : List (String × Interface)) (abi : Abi) (l : RawLog)
        (rest : List RawLog),
      parseEventLogs cache (l :: rest) abi =
        ((l :: rest).filterMap fun lg =>
            parseEventLog lg (cachedInterface cache l.address abi),
         cacheAfter cache l.address abi)) ∧
    (∀ (failures : Nat) (logs : List RawLog) (ca1 ca2 : Option String)
        (abi : Abi) (topic : TopicsInput) (fb tb : Option Nat)
        (parser : Option (List NormalizedRecord → List NormalizedRecord))
        (prov : Bool) (cache : List (String × Interface)) (delay : Nat),
      (fetchLogsRun failures logs ca1 abi topic fb tb parser prov cache delay).cache =
      (fetchLogsRun failures logs ca2 abi topic fb tb parser prov cache delay).cache) := by
  refine ⟨fun _ _ => rfl, fun _ _ _ _ => rfl, ?_⟩
  intro failures
  induction failures with
  | zero => intro logs ca1 ca2 abi topic fb tb parser prov cache delay; rfl
  | succ k ih =>
    intro logs ca1 ca2 abi topic fb tb parser prov cache delay
    simpa [fetchLogsRun] using
      ih logs ca1 ca2 abi topic fb tb parser false cache 1000

/-! ## Claim C2 -/

/-- Descriptor with an explicit fromBlock of 0, used to exhibit the
truthiness test on the resolved starting block. -/
def exDescriptorZero : EventDescriptor :=
  { name := "Transfer", contract := "0xC", abi := exAbi
    params := none, fromBlock := some 0, backFillBlockCount := none }

/-- Counterexample to C2 as stated: with an explicit fromBlock of 0 the
starting block resolves to 0, yet subscribeToEvent performs no historical
fetch — the source guards the fetch with a JS truthiness test on the
resolved block, so a resolved starting block does not always trigger a
historical fetch. -/
theorem subscribeToEvent_resolved_zero_skips_backfill :
    resolvedStartingBlock exDescriptorZero 41 = some 0 ∧
    subscribeToEvent exDescriptorZero 41 =
      .ok [TrackAction.liveSubscribe "0xC" [some "0xT"] 41] := by
  constructor <;> rfl

/-- Claim C2 (amended): trackEvent reads the head block h and orchestrates
at blockNumber = h - 1; subscribeToEvent resolves the starting block with
explicit fromBlock winning over blockNumber - backFillBlockCount; whenever
a nonzero starting block was resolved (a resolved block of 0 is falsy and
skipped) it triggers a historical fetch over that range, and in every case
where topic derivation succeeds it opens a live subscription at
blockNumber, then appends the descriptor and reports true. -/
theorem trackEvent_backfill_and_live (tracked : List EventDescriptor)
    (head : Int) (ev : EventDescriptor) (ts : List (Option String))
    (hts : getEventTopics ev.name ev.params ev.abi = .ok ts) :
    trackEvent tracked head ev =
      .ok ((match resolvedStartingBlock ev (head - 1) with
            | some o =>
              if o ≠ 0 then
                [TrackAction.historicalFetch ev.contract ts o (head - 1)]
              else []
            | none => []) ++
           [TrackAction.liveSubscribe ev.contract ts (head - 1)],
           tracked ++ [ev], true) := by
  simp [trackEvent, subscribeToEvent, hts, Bind.bind, Except.bind, Pure.pure,
    Except.pure]

/-- Descriptor of the end-to-end scenario of C2: backFillBlockCount 10. -/
def exDescriptorBackfill : EventDescriptor :=
  { name := "Transfer", contract := "0xABC", abi := exAbi
    params := none, fromBlock := none, backFillBlockCount := some 10 }

/-- Witness for C2 at the claim's scenario: head block 1000 with
backFillBlockCount 10 yields a historical fetch over blocks 989 to 999 and
a live subscription starting at block 999. -/
theorem trackEvent_backfill_and_live_witness :
    trackEvent [] 1000 exDescriptorBackfill =
      .ok ([TrackAction.historicalFetch "0xABC" [some "0xT"] 989 999,
            TrackAction.liveSubscribe "0xABC" [some "0xT"] 999],
           [exDescriptorBackfill], true) := by
  rw [trackEvent_backfill_and_live [] 1000 exDescriptorBackfill [some "0xT"]
    (by rfl)]
  rfl

/-! ## Claim C3 -/

/-- Counterexample to C3 as stated: when a caller-supplied provider is in
play and the first attempt fails, the retry is not the identical request —
the recursive rescheduling at src/index.js line 113 omits the provider
argument, so the second attempt goes through the default transport. -/
theorem fetchLogs_retry_not_identical :
    ((fetchLogsRun 1 [] (some "0xa") exAbi (.single (some "0xT"))
      (some 5) (some 9) none true [] 0).attempts.map fun a => a.usedProvider) =
      [true, false] ∧
    ([true, false] ≠ List.replicate 2 true) := by
  exact ⟨rfl, by decide⟩

/-- Claim C3 (amended): a failing fetchLogs attempt reschedules the request
after a fixed 1000 ms delay without any retry limit; the query parameters
are identical across all attempts and the eventual successful attempt's
normalized, optionally transformed result is returned to the caller —
however the optional provider argument is dropped by the rescheduling, so
every retry uses the default transport. -/
theorem fetchLogs_retry_schedule :
    ∀ (failures : Nat) (logs : List RawLog) (ca : Option String) (abi : Abi)
      (topic : TopicsInput) (fb tb : Option Nat)
      (parser : Option (List NormalizedRecord → List NormalizedRecord))
      (prov : Bool) (cache : List (String × Interface)) (delay : Nat),
      (fetchLogsRun failures logs ca abi topic fb tb parser prov cache
        delay).attempts.length = failures + 1 ∧
      ((fetchLogsRun failures logs ca abi topic fb tb parser prov cache
        delay).attempts.map fun a => a.params) =
        List.replicate (failures + 1) (buildLogParams ca topic fb tb) ∧
      ((fetchLogsRun failures logs ca abi topic fb tb parser prov cache
        delay).attempts.map fun a => a.delayMs) =
        delay :: List.replicate failures 1000 ∧
      ((fetchLogsRun failures logs ca abi topic fb tb parser prov cache
        delay).attempts.map fun a => a.usedProvider) =
        prov :: List.replicate failures false ∧
      (fetchLogsRun failures logs ca abi topic fb tb parser prov cache
        delay).result = applyParser parser (parseEventLogs cache logs abi).1 := by
  intro failures
  induction failures with
  | zero =>
    intro logs ca abi topic fb tb parser prov cache delay
    exact ⟨rfl, rfl, rfl, rfl, rfl⟩
  | succ k ih =>
    intro logs ca abi topic fb tb parser prov cache delay
    obtain ⟨ih1, ih2, ih3, ih4, ih5⟩ :=
      ih logs ca abi topic fb tb parser false cache 1000
    refine ⟨?_, ?_, ?_, ?_, ?_⟩
    · simp [fetchLogsRun, ih1]
    · simp only [fetchLogsRun, List.map_cons, ih2]
      simp [List.replicate_succ]
    · simp [fetchLogsRun, ih3, List.replicate_succ]
    · simp [fetchLogsRun, ih4, List.replicate_succ]
    · simpa [fetchLogsRun] using ih5

/-! ## Claim C9 -/

/-- Block-bound encoding as the claim describes it: canonical minimal hex
whenever a block number was provided and the literal "latest" otherwise.
Stated from the spec's words for comparison with the code's encoding. -/
def specEncodeBlockBound : Option Nat → String
  | none => "latest"
  | some n => hexStripZeros (hexlify n)

/-- Counterexample to C9 as stated: the provided block number 0 is falsy in
the source's conditional and encodes as the literal "latest" instead of its
minimal-hex form 0x0. -/
theorem fetchLogs_block_zero_encodes_latest :
    (buildLogParams (some "0xa") (.single (some "0xT")) (some 0)
      (some 9)).fromBlock = "latest" ∧
    specEncodeBlockBound (some 0) = "0x0" ∧
    ("latest" : String) ≠ "0x0" := by
  exact ⟨rfl, rfl, by decide⟩

/-- Claim C9 (amended): every fetchLogs query object carries address,
topics, fromBlock and toBlock; a provided nonzero block bound is encoded as
canonical minimal hex (the hexlified bytes with the leading zero digits
stripped, which never start with a zero digit), while an absent bound — or
the falsy block number 0 — encodes as the literal "latest". -/
theorem fetchLogs_query_fields (ca : Option String) (topic : TopicsInput)
    (fb tb : Option Nat) :
    (buildLogParams ca topic fb tb).address = jsOrUndefined ca ∧
    (buildLogParams ca topic fb tb).topics =
      (match topic with | .arr l => l | .single t => [t]) ∧
    (∀ n, fb = some n → n ≠ 0 →
      (buildLogParams ca topic fb tb).fromBlock =
        "0x" ++ (hexDigits n).asString ∧
      ∀ c rest, hexDigits n = c :: rest → c ≠ '0') ∧
    ((fb = none ∨ fb = some 0) →
      (buildLogParams ca topic fb tb).fromBlock = "latest") ∧
    (∀ n, tb = some n → n ≠ 0 →
      (buildLogParams ca topic fb tb).toBlock =
        "0x" ++ (hexDigits n).asString) ∧
    ((tb = none ∨ tb = some 0) →
      (buildLogParams ca topic fb tb).toBlock = "latest") := by
  refine ⟨rfl, rfl, ?_, ?_, ?_, ?_⟩
  · intro n hn hnz
    subst hn
    constructor
    · show encodeBlockBound (some n) = _
      simp only [encodeBlockBound, hnz, if_neg, if_false]
      exact hexStripZeros_hexlify n (Nat.pos_of_ne_zero hnz)
    · intro c rest hc
      obtain ⟨m, rest2, hm0, hm16, heq⟩ :=
        hexDigits_head n (Nat.pos_of_ne_zero hnz)
      rw [heq] at hc
      cases hc
      exact digitChar_ne_zero m hm16 hm0
  · rintro (h | h) <;> subst h <;> rfl
  · intro n hn hnz
    subst hn
    show encodeBlockBound (some n) = _
    simp only [encodeBlockBound, hnz, if_neg, if_false]
    exact hexStripZeros_hexlify n (Nat.pos_of_ne_zero hnz)
  · rintro (h | h) <;> subst h <;> rfl

/-- Witness for C9 at the blocks of the backfill scenario: 989 and 999
encode as 0x3dd and 0x3e7, absent bounds as "latest". -/
theorem fetchLogs_query_fields_witness :
    (buildLogParams (some "0xa") (.single (some "0xT")) (some 989)
      (some 999)).fromBlock = "0x3dd" ∧
    (buildLogParams (some "0xa") (.single (some "0xT")) (some 989)
      (some 999)).toBlock = "0x3e7" ∧
    (buildLogParams (some "0xa") (.single (some "0xT")) none
      (some 999)).fromBlock = "latest" := by
  refine ⟨?_, ?_, ?_⟩
  · rw [(fetchLogs_query_fields (some "0xa") (.single (some "0xT")) (some 989)
      (some 999)).2.2.1 989 rfl (by decide) |>.1]
    rfl
  · rw [(fetchLogs_query_fields (some "0xa") (.single (some "0xT")) (some 989)
      (some 999)).2.2.2.2.1 999 rfl (by decide)]
    rfl
  · exact (fetchLogs_query_fields (some "0xa") (.single (some "0xT")) none
      (some 999)).2.2.2.1 (Or.inl rfl)

/-! ## Claim C6 -/

theorem assocLookup_eq_none (key : String) (l : List (String × α))
    (h : ∀ kv ∈ l, kv.1 ≠ key) : assocLookup key l = none := by
  induction l with
  | nil => rfl
  | cons kv rest ih =>
    simp only [assocLookup, h kv (List.mem_cons_self kv rest), if_neg, if_false]
    exact ih fun kv2 h2 => h kv2 (List.mem_cons_of_mem kv h2)

/-- Effect of the truthiness filter on property reads for an object with
distinct keys: a falsy stored value becomes indistinguishable from an
absent key. -/
theorem assocLookup_pickByTruthy (params : List (String × JsVal)) (key : String)
    (hnodup : (params.map Prod.fst).Nodup) :
    assocLookup key (pickByTruthy params) =
      match assocLookup key params with
      | some v => if v.truthy then some v else none
      | none => none := by
  induction params with
  | nil => rfl
  | cons kv rest ih =>
    have hnodup2 : (rest.map Prod.fst).Nodup :=
      (List.nodup_cons.mp (by simpa using hnodup)).2
    have hhead : kv.1 ∉ rest.map Prod.fst :=
      (List.nodup_cons.mp (by simpa using hnodup)).1
    have hfc : pickByTruthy (kv :: rest) =
        if kv.2.truthy then kv :: pickByTruthy rest else pickByTruthy rest := by
      simp [pickByTruthy, List.filter_cons]
    rw [hfc]
    by_cases hkey : kv.1 = key
    · by_cases htr : kv.2.truthy
      · simp [htr, assocLookup, hkey]
      · have hnone : assocLookup key (pickByTruthy rest) = none := by
          apply assocLookup_eq_none
          intro kv2 h2
          have h2f : kv2 ∈ rest.filter (fun kv => kv.2.truthy) := h2
          have h3 : kv2 ∈ rest := List.mem_of_mem_filter h2f
          intro hk2
          exact hhead (List.mem_map.mpr ⟨kv2, h3, by rw [hk2, hkey]⟩)
        simp [htr, assocLookup, hkey, hnone]
    · by_cases htr : kv.2.truthy
      · simp [htr, assocLookup, hkey, ih hnodup2]
      · simp [htr, assocLookup, hkey, ih hnodup2]

/-- Rendering of a filter value used by the revealing example encoder. -/
def jsValRender : JsVal → String
  | .str s => s
  | .num n => intDecStr n
  | .bool b => if b then "true" else "false"
  | .null => "null"

/-- Example ABI with a single one-parameter event whose topic encoder
reveals the positional array it receives. -/
def exRevealAbi : Abi :=
  { events := [("E(bool)", ⟨"E", ["x"]⟩)]
    decode := fun _ => .ok none
    encodeTopics := fun _ vals => vals.map (Option.map jsValRender) }

/-- Positional parameter array as the claim describes it: the caller's
value whenever the key is present, with only an explicit null treated like
an absent key. Stated from the spec's words for comparison with the code's
array. -/
def specEventParamsArray (paramsInputs : Option (List (String × JsVal)))
    (abiEvent : EventAbi) : List (Option JsVal) :=
  abiEvent.inputs.map fun inputName =>
    match assocLookup inputName (paramsInputs.getD []) with
    | some JsVal.null => none
    | some v => some v
    | none => none

/-- Counterexample to C6 as stated: a caller-supplied falsy parameter value
(here the boolean false) is dropped by the pickBy filter and encoded as a
null placeholder, whereas the claim's positional array keeps every present
value — under an encoder that reveals its argument the two topic lists
differ. -/
theorem getEventTopics_falsy_param_dropped :
    getEventTopics "E" (some [("x", JsVal.bool false)]) exRevealAbi =
      .ok [none] ∧
    specEventParamsArray (some [("x", JsVal.bool false)]) ⟨"E", ["x"]⟩ =
      [some (JsVal.bool false)] ∧
    exRevealAbi.encodeTopics "E" [some (JsVal.bool false)] = [some "false"] ∧
    (([none] : List (Option String)) ≠ [some "false"]) := by
  exact ⟨rfl, rfl, rfl, by decide⟩

/-- Claim C6 (amended): for a known event name, getEventTopics builds the
positional array with one entry per declared input in declaration order,
uses the caller-supplied value for that parameter when it is present and
truthy, and a null placeholder otherwise — every falsy supplied value
(null, false, 0, the empty string) is treated exactly like an absent key —
then passes the array to the decoder's filter-topic encoder; the deriver
is a pure function of (eventName, params, abiDescription) and hence
deterministic. -/
theorem getEventTopics_positional_array (name : String)
    (paramsInputs : Option (List (String × JsVal))) (abi : Abi)
    (abiEvent : EventAbi)
    (hfound : lookupMappedEvent abi.events name = some abiEvent)
    (hnodup : ((paramsInputs.getD []).map Prod.fst).Nodup) :
    getEventTopics name paramsInputs abi =
      .ok (abi.encodeTopics name (abiEvent.inputs.map fun inputName =>
        match assocLookup inputName (paramsInputs.getD []) with
        | some v => if v.truthy then some v else none
        | none => none)) := by
  have harr : (fun inputName =>
      (match assocLookup inputName (pickByTruthy (paramsInputs.getD [])) with
        | some v => some v
        | none => none : Option JsVal)) =
      (fun inputName =>
        match assocLookup inputName (paramsInputs.getD []) with
        | some v => if v.truthy then some v else none
        | none => none) := by
    funext inputName
    rw [assocLookup_pickByTruthy _ _ hnodup]
    cases assocLookup inputName (paramsInputs.getD []) with
    | none => rfl
    | some v =>
      by_cases htr : v.truthy <;> simp [htr]
  simp only [getEventTopics, Interface.events, Interface.new, hfound,
    Interface.encodeFilterTopics, eventParamsArray, harr]

/-- Witness for C6: a present truthy parameter is kept at its declared
position and encoded. -/
theorem getEventTopics_positional_array_witness :
    getEventTopics "E" (some [("x", JsVal.str "0xbeef")]) exRevealAbi =
      .ok [some "0xbeef"] := by
  rw [getEventTopics_positional_array "E" (some [("x", JsVal.str "0xbeef")])
    exRevealAbi ⟨"E", ["x"]⟩ (by rfl) (by decide)]
  rfl

/-! ## Claim C7 -/

theorem uniqFirstAux_mem (l : List String) : ∀ (seen : List String) (x : String),
    x ∈ uniqFirstAux seen l ↔ (x ∈ l ∧ x ∉ seen) := by
  induction l with
  | nil => intro seen x; simp [uniqFirstAux]
  | cons a rest ih =>
    intro seen x
    by_cases ha : a ∈ seen
    · simp only [uniqFirstAux, ha, if_pos, ih seen x, List.mem_cons]
      constructor
      · exact fun h => ⟨Or.inr h.1, h.2⟩
      · rintro ⟨h1 | h1, h2⟩
        · exact absurd (h1 ▸ ha) h2
        · exact ⟨h1, h2⟩
    · simp only [uniqFirstAux, ha, if_neg, if_false, List.mem_cons,
        ih (a :: seen) x]
      constructor
      · rintro (h | ⟨h1, h2⟩)
        · exact ⟨Or.inl h, h ▸ ha⟩
        · exact ⟨Or.inr h1, fun hx => h2 (Or.inr hx)⟩
      · rintro ⟨h1 | h1, h2⟩
        · exact Or.inl h1
        · by_cases hxa : x = a
          · exact Or.inl hxa
          · exact Or.inr ⟨h1, fun hor => hor.elim hxa h2⟩

theorem uniqFirstAux_nodup (l : List String) : ∀ seen : List String,
    (uniqFirstAux seen l).Nodup := by
  induction l with
  | nil => intro seen; simp [uniqFirstAux]
  | cons a rest ih =>
    intro seen
    by_cases ha : a ∈ seen
    · simpa [uniqFirstAux, ha] using ih seen
    · simp only [uniqFirstAux, ha, if_neg, if_false]
      refine List.nodup_cons.mpr ⟨?_, ih (a :: seen)⟩
      intro hmem
      exact ((uniqFirstAux_mem rest (a :: seen) a).mp hmem).2
        (List.mem_cons_self a seen)

/-- Example ABI declaring the events B then A, in that order. -/
def exTwoEventAbi : Abi :=
  { events := [("B()", ⟨"B", []⟩), ("A()", ⟨"A", []⟩)]
    decode := fun _ => .ok none
    encodeTopics := fun _ _ => [] }

/-- Counterexample to C7 as stated: for an unknown event name the failure
message enumerates the distinct declared event names in declaration order,
not sorted — an ABI declaring B before A produces the list B, A, which is
not sorted in the dictionary order on the strings' character lists. -/
theorem getEventTopics_unknown_event_unsorted :
    getEventTopics "C" none exTwoEventAbi =
      .error "C not an abi event, possible events are B, A" ∧
    availableEventNames exTwoEventAbi.events = ["B", "A"] ∧
    ¬ List.Sorted (fun a b : String => a.data ≤ b.data)
      (availableEventNames exTwoEventAbi.events) := by
  refine ⟨rfl, rfl, ?_⟩
  intro h
  rw [show availableEventNames exTwoEventAbi.events = ["B", "A"] from rfl,
    List.sorted_cons] at h
  exact absurd (h.1 "A" (by simp)) (by decide)

/-- Claim C7 (amended): for an event name absent from the ABI's declared
events the deriver fails by raising an error, and the message enumerates
the distinct available event names deduplicated in first-occurrence
(declaration) order — not sorted. -/
theorem getEventTopics_unknown_event (name : String)
    (paramsInputs : Option (List (String × JsVal))) (abi : Abi)
    (habs : lookupMappedEvent abi.events name = none) :
    getEventTopics name paramsInputs abi =
      .error (unknownEventMessage name abi.events) ∧
    (availableEventNames abi.events).Nodup ∧
    (∀ s, s ∈ availableEventNames abi.events ↔
      s ∈ abi.events.map fun kv => kv.2.name) := by
  refine ⟨?_, uniqFirstAux_nodup _ [], ?_⟩
  · simp only [getEventTopics, Interface.events, Interface.new, habs]
  · intro s
    rw [availableEventNames, uniqFirst, uniqFirstAux_mem]
    simp

/-- Witness for C7 at a concrete unknown name: the raised message lists the
single declared event name. -/
theorem getEventTopics_unknown_event_witness :
    getEventTopics "Mint" none exAbi =
      .error "Mint not an abi event, possible events are Transfer" ∧
    (availableEventNames exAbi.events).Nodup := by
  have h := getEventTopics_unknown_event "Mint" none exAbi rfl
  refine ⟨?_, h.2.1⟩
  rw [h.1]
  rfl

end EventListener
